import Mathlib

/-!
Verification of the dcc-ex-go client library against its specification.

The Go sources are embedded shallowly: Go strings become `List Char`,
fallible functions return `Except`/`Option`, and the concurrent pieces
(session gate, listener, subscription cleanup) become explicit step
functions over small state types.  Every definition mirrors a named
function of the repository; the doc comment of each definition names the
source it embeds.
-/

namespace DccExGo

/-! ## Go string primitives

`strings.Trim(s, cutset)` removes all leading and trailing characters
contained in `cutset`.  It is embedded as `goTrim` via a left trim and a
reversed left trim. -/

/-- Left part of Go `strings.Trim`: drop leading characters contained in `cut`. -/
def trimLeft (cut : List Char) : List Char → List Char
  | [] => []
  | c :: rest => if c ∈ cut then trimLeft cut rest else c :: rest

/-- Embeds Go `strings.Trim s cut`: removes all leading and trailing characters
that are contained in `cut`. -/
def goTrim (cut : List Char) (s : List Char) : List Char :=
  (trimLeft cut (trimLeft cut s).reverse).reverse

/-- Embeds Go `strings.Join(parts, " ")` on character lists. -/
def joinSp : List (List Char) → List Char
  | [] => []
  | [x] => x
  | x :: xs => x ++ ' ' :: joinSp xs

/-- One hexadecimal digit, used by the embedding of Go `%q` escaping. -/
def hexDigit (n : Nat) : Char :=
  if n < 10 then Char.ofNat (48 + n) else Char.ofNat (87 + n)

/-- Embeds the per-character behaviour of Go `strconv.Quote` (the `%q` verb)
on the character ranges the library produces: printable characters are kept,
quote and backslash are escaped, common control characters use their
two-character escapes and remaining control bytes use a hexadecimal escape. -/
def goQuoteChar (c : Char) : List Char :=
  if c = '"' then ['\\', '"']
  else if c = '\\' then ['\\', '\\']
  else if c = '\n' then ['\\', 'n']
  else if c = '\t' then ['\\', 't']
  else if c = '\r' then ['\\', 'r']
  else if c.toNat < 32 ∨ c.toNat = 127 then
    ['\\', 'x', hexDigit (c.toNat / 16), hexDigit (c.toNat % 16)]
  else [c]

/-- Embeds Go `strconv.Quote` / the `%q` formatting verb on strings. -/
def goQuote (s : List Char) : List Char :=
  '"' :: ((s.flatMap goQuoteChar) ++ ['"'])

/-- Decimal rendering of an integer, as Go `%d` prints it. -/
def intDec (n : Int) : List Char := (toString n).data

/-- Decimal rendering of a natural number, as Go `strconv.FormatUint` prints it. -/
def natDec (n : Nat) : List Char := (toString n).data

/-! ## Command codec

Embeds `command/command.go` (src/unnamed/part_000, the revision with quoted
parameter support, lines 96–236): the `Command` struct, `NewCommandFromString`,
`Command.String`, `Command.Bytes` and `Command.ParametersStrings`. -/

/-- A Go `any` value as stored in `Command.parameters`: the repository only
ever stores strings (from parsing), integers and characters (from builders). -/
inductive GoValue
  | str : List Char → GoValue
  | int : Int → GoValue
  | char : Char → GoValue
deriving DecidableEq, Repr

/-- Embeds the `Command` struct of `command/command.go`: one opcode character,
a printf-style format template, and the ordered parameter list. -/
structure Command where
  opCode : Char
  format : List Char
  parameters : List GoValue
deriving DecidableEq, Repr

/-- Embeds `NewCommand`: builder from opcode, format and parameters. -/
def NewCommand (opCode : Char) (format : List Char) (parameters : List GoValue) : Command :=
  ⟨opCode, format, parameters⟩

/-- The format marker chosen by `storeParameterF` in `NewCommandFromString`:
`%q` when the accumulated token contains a quote character, `%s` otherwise. -/
def markerOf (cur : List Char) : List Char :=
  if '"' ∈ cur then ['%', 'q'] else ['%', 's']

/-- The parameter value stored by `storeParameterF`: the accumulated token with
leading and trailing quote characters trimmed. -/
def valueOf (cur : List Char) : List Char :=
  goTrim ['"'] cur

/-- Embeds the rune loop of `NewCommandFromString` together with the trailing
`storeParameterF` call: splits the remainder of the body into parameters at
unquoted spaces, toggling the quoted flag at each quote character, and stores
the final token when it is non-empty.  Returns the format markers and the
parameter values in order. -/
def parseLoop : List Char → List Char → Bool → List (List Char) → List (List Char) →
    (List (List Char) × List (List Char))
  | [], cur, _, fmts, ps =>
    if cur.isEmpty then (fmts, ps) else (fmts ++ [markerOf cur], ps ++ [valueOf cur])
  | c :: rest, cur, inQ, fmts, ps =>
    if c = ' ' ∧ inQ = false then
      parseLoop rest [] inQ (fmts ++ [markerOf cur]) (ps ++ [valueOf cur])
    else
      parseLoop rest (cur ++ [c]) (if c = '"' then !inQ else inQ) fmts ps

/-- Embeds `NewCommandFromString` of `command/command.go`: trims the `<` `>`
delimiters, rejects an empty body with the "invalid command length" error,
takes the first character as the opcode, trims surrounding spaces from the
remainder and runs the parameter loop. -/
def NewCommandFromString (command : List Char) : Except (List Char) Command :=
  match goTrim ['<', '>'] command with
  | [] => .error ("invalid command length: ".data ++ goQuote command)
  | op :: rest =>
    let body := goTrim [' '] rest
    let fp := parseLoop body [] false [] []
    .ok ⟨op, joinSp fp.1, fp.2.map .str⟩

/-- Embeds Go `fmt.Sprintf` restricted to the verb/argument combinations the
repository produces (`%s`, `%q`, `%d`, `%c`, matched one-to-one with the
parameters); a missing argument renders Go's `%!v(MISSING)` marker and extra
arguments render Go's `%!(EXTRA ...)` marker. -/
def renderFormat : List Char → List GoValue → List Char
  | '%' :: 's' :: rest, .str s :: vs => s ++ renderFormat rest vs
  | '%' :: 'q' :: rest, .str s :: vs => goQuote s ++ renderFormat rest vs
  | '%' :: 'd' :: rest, .int n :: vs => intDec n ++ renderFormat rest vs
  | '%' :: 'c' :: rest, .char ch :: vs => ch :: renderFormat rest vs
  | '%' :: 's' :: rest, [] => "%!s(MISSING)".data ++ renderFormat rest []
  | '%' :: 'q' :: rest, [] => "%!q(MISSING)".data ++ renderFormat rest []
  | c :: rest, vs => c :: renderFormat rest vs
  | [], [] => []
  | [], _ :: _ => "%!(EXTRA)".data

/-- Embeds `Command.String`: `<c>` when the format is empty, otherwise
`<c f>` with the format template instantiated by the parameters. -/
def Command.string (c : Command) : List Char :=
  if c.format.isEmpty then ['<', c.opCode, '>']
  else '<' :: c.opCode :: ' ' :: (renderFormat c.format c.parameters ++ ['>'])

/-- Embeds `Command.Bytes`: the serialized frame followed by a newline. -/
def Command.bytes (c : Command) : List Char :=
  c.string ++ ['\n']

/-- Embeds `Command.ParametersStrings`: casts every parameter to a string and
fails on the first parameter that is not a string. -/
def Command.parametersStrings (c : Command) : Except (List Char) (List (List Char)) :=
  c.parameters.mapM fun p => match p with
    | .str s => .ok s
    | _ => .error "failed to cast parameter to string".data

/-! ## Protocol listener frame reassembly

Embeds the byte loop of `Protocol.listen` (src/unnamed/part_004 lines 107–142;
identical in src/unnamed/part_002 lines 117–151), viewed as the function from
the incoming byte sequence to the sequence of frame strings handed to
`notifyF` for dispatch.  The state is the `commandReading` flag and the
accumulated `commandRunes` buffer. -/

/-- Embeds the inner byte loop of `Protocol.listen`: `<` sets the reading flag
(keeping the accumulated buffer), `>` emits the accumulated buffer and resets,
newlines are skipped, and any other byte is appended while reading.  Returns
the frames emitted for dispatch, in order. -/
def listenGo : List Char → Bool → List Char → List (List Char)
  | [], _, _ => []
  | c :: rest, reading, buf =>
    if c = '<' then listenGo rest true buf
    else if c = '>' then buf :: listenGo rest false []
    else if c = '\n' then listenGo rest reading buf
    else if reading then listenGo rest reading (buf ++ [c])
    else listenGo rest reading buf

/-- Listener state of the specification's reassembly machine. -/
inductive LState
  | idle
  | reading
deriving DecidableEq, Repr

/-- Modelled from the spec: the reference reassembly state machine of §4.3 as
the claim states it — `<` enters READING and discards any accumulated bytes,
newlines are discarded in every state, any byte other than `>` and newline
inside READING is appended, and `>` exits READING and emits the buffer. -/
def listenSpecClaim : List Char → LState → List Char → List (List Char)
  | [], _, _ => []
  | c :: rest, st, buf =>
    if c = '\n' then listenSpecClaim rest st buf
    else if c = '<' then listenSpecClaim rest .reading []
    else
      match st with
      | .idle => listenSpecClaim rest .idle buf
      | .reading =>
        if c = '>' then buf :: listenSpecClaim rest .idle []
        else listenSpecClaim rest .reading (buf ++ [c])

/-- The amended reference reassembly state machine: as `listenSpecClaim`, but
`<` retains the bytes accumulated so far, and `>` emits the accumulated buffer
in every state (in IDLE the buffer is empty, so an empty frame is emitted). -/
def listenSpecAmended : List Char → LState → List Char → List (List Char)
  | [], _, _ => []
  | c :: rest, st, buf =>
    if c = '\n' then listenSpecAmended rest st buf
    else if c = '<' then listenSpecAmended rest .reading buf
    else if c = '>' then buf :: listenSpecAmended rest .idle []
    else
      match st with
      | .idle => listenSpecAmended rest .idle buf
      | .reading => listenSpecAmended rest .reading (buf ++ [c])

/-! ## Channel session gate

Embeds the locking behaviour of `Channel.Session`, `Channel.SessionSuccess`
and `Channel.RSession` (src/output/output_headless.go lines 259–329; the older
src/channel/channel.go has the same locking structure).  `Session` and
`SessionSuccess` acquire the channel's `sessionLock` mutex for their whole
duration; `RSession` runs its function without taking any lock. -/

/-- Number of currently running write sessions (holders of `sessionLock`) and
read sessions (`RSession` calls in flight). -/
structure GateState where
  writers : Nat
  readers : Nat
deriving DecidableEq, Repr

/-- Session lifecycle events: a write session (Session/SessionSuccess) begins
by acquiring `sessionLock` and ends by releasing it; a read session (RSession)
begins and ends without touching any lock. -/
inductive GateEvent
  | acquireWrite
  | releaseWrite
  | acquireRead
  | releaseRead
deriving DecidableEq, Repr

/-- Step relation of the session gate.  `acquireWrite` is enabled only when no
write session holds `sessionLock` (a `sync.Mutex` blocks otherwise);
`acquireRead` is always enabled because `RSession` takes no lock;
releases require a matching holder. -/
def gateStep (s : GateState) : GateEvent → Option GateState
  | .acquireWrite => if s.writers = 0 then some ⟨s.writers + 1, s.readers⟩ else none
  | .releaseWrite => if 1 ≤ s.writers then some ⟨s.writers - 1, s.readers⟩ else none
  | .acquireRead => some ⟨s.writers, s.readers + 1⟩
  | .releaseRead => if 1 ≤ s.readers then some ⟨s.writers, s.readers - 1⟩ else none

/-- Run of the session gate over a list of events from a given state. -/
def gateRun (s : GateState) : List GateEvent → Option GateState
  | [] => some s
  | e :: es =>
    match gateStep s e with
    | some s2 => gateRun s2 es
    | none => none

/-- States of the gate reachable from the idle channel. -/
inductive GateReachable : GateState → Prop
  | init : GateReachable ⟨0, 0⟩
  | step {s s2 : GateState} {e : GateEvent} :
      GateReachable s → gateStep s e = some s2 → GateReachable s2

/-- The invariant asserted by the claim: at most one write session, and no
read session while a write session holds the gate. -/
def claimGateInv (s : GateState) : Prop :=
  s.writers ≤ 1 ∧ (1 ≤ s.writers → s.readers = 0)

/-! ## Last-written-command cache and SessionSuccess

Embeds `readWriteCloserCache.Write` / `lastCommand` and
`Channel.SessionSuccess` from src/output/output_headless.go lines 241–321. -/

/-- A Go error value: a plain message, an errno-backed error, or a wrapping
error produced by `fmt.Errorf` with `%w` (context message plus wrapped error). -/
inductive GoError
  | errno : Nat → GoError
  | msg : List Char → GoError
  | wrap : List Char → GoError → GoError
deriving DecidableEq, Repr

/-- Embeds Go `errors.Is err target`: matches the target against the error and
every error in its unwrap chain. -/
def goErrorIs : GoError → GoError → Bool
  | e, t =>
    decide (e = t) ||
      match e with
      | .wrap _ inner => goErrorIs inner t
      | _ => false

/-- Go `unix.EBADF` ("bad file descriptor"). -/
def eBADF : GoError := .errno 9

/-- Embeds `readWriteCloserCache.Write` iterated over the commands written in
order: the cache always holds the most recently written command; `lastCommand`
reads the cache. -/
def lastCommandCache (init : Command) : List Command → Command
  | [] => init
  | c :: cs => lastCommandCache c cs

/-- Which of the two racing goroutines inside `SessionSuccess` settles first:
the failure watcher observes an `X` frame, or the session function returns
(with `none` for success or its own error). -/
inductive SessionOutcome
  | failFrame
  | fDone : Option GoError → SessionOutcome

/-- Result of one `SessionSuccess` run: the returned error, whether the
session function's context was cancelled before it completed, and whether the
failure watcher was cancelled. -/
structure SessionResult where
  result : Option GoError
  fCancelled : Bool
  watcherCancelled : Bool
deriving DecidableEq, Repr

/-- The error built by the failure watcher inside `SessionSuccess`:
`fmt.Errorf("observed session failure after last command %q", ...)` applied to
the serialization of the cached last-written command. -/
def sessionFailureError (lastCmd : Command) : GoError :=
  .msg ("observed session failure after last command ".data ++ goQuote lastCmd.string)

/-- Embeds `Channel.SessionSuccess`: the failure watcher and the session
function race inside an errgroup under `earlyCancelCtx`.  If the watcher sees
the fail opcode first it returns the failure error naming the cached last
command, which cancels the errgroup context and therefore the session
function.  If the session function returns `nil` first it calls `earlyCancel`,
the watcher's read aborts with the cancellation error, and the final check
suppresses that error because `earlyCancelCtx` is cancelled.  If the session
function returns its own error first, the errgroup cancels the watcher and
`g.Wait` returns that first error, which is returned unless the outer context
was already cancelled. -/
def sessionSuccess (outerCancelled : Bool) (outcome : SessionOutcome) (lastCmd : Command) :
    SessionResult :=
  match outcome with
  | .failFrame =>
    { result := if outerCancelled then none else some (sessionFailureError lastCmd)
      fCancelled := true
      watcherCancelled := false }
  | .fDone none =>
    { result := none
      fCancelled := false
      watcherCancelled := true }
  | .fDone (some e) =>
    { result := if outerCancelled then none else some e
      fCancelled := false
      watcherCancelled := true }

/-! ## Subscription cleanup

Embeds the cleanup closure returned by `Protocol.Read`
(src/unnamed/part_004 lines 189–208). -/

/-- State of one subscription as seen by its cleanup closure: the relay
goroutine's cancellation context and liveness, the closed-flags of its three
channels, and its presence in the registry map. -/
structure SubState where
  ctxCancelled : Bool
  relayRunning : Bool
  egressClosed : Bool
  cancelledClosed : Bool
  ingressClosed : Bool
  inRegistry : Bool
deriving DecidableEq, Repr

/-- The state of a subscription freshly registered by `Protocol.Read`. -/
def subInit : SubState :=
  ⟨false, true, false, false, false, true⟩

/-- Embeds Go `close(ch)` on a channel with the given closed-flag: closing an
already-closed channel panics. -/
def goClose (closed : Bool) : Except (List Char) Bool :=
  if closed then .error "close of closed channel".data else .ok true

/-- Embeds the cleanup closure of `Protocol.Read`: cancel the relay context
(idempotent), wait for the relay goroutine to exit, close the egress channel,
close the cancellation channel, then under the registry lock close the ingress
channel and delete the subscription.  The error case is a Go runtime panic. -/
def cleanupRun (s : SubState) : Except (List Char) SubState :=
  let s1 : SubState := { s with ctxCancelled := true, relayRunning := false }
  match goClose s1.egressClosed with
  | .error p => .error p
  | .ok _ =>
    match goClose s1.cancelledClosed with
    | .error p => .error p
    | .ok _ =>
      match goClose s1.ingressClosed with
      | .error p => .error p
      | .ok _ =>
        .ok { s1 with
          egressClosed := true
          cancelledClosed := true
          ingressClosed := true
          inRegistry := false }

/-! ## Protocol.Write

Embeds `Protocol.Write` of src/unnamed/part_004 lines 247–261 (the revision
whose subscription design the rest of the specification describes). -/

/-- Embeds `Protocol.Write`: given the transport write's outcome, a nil error
passes through, a "bad file descriptor" error becomes the "serial port is
closed" error, and any other error is wrapped with the failing command's
serialization via `fmt.Errorf("failed to write command %q: %w", ...)`. -/
def protocolWrite (portErr : Option GoError) (cmd : Command) : Option GoError :=
  match portErr with
  | none => none
  | some e =>
    if goErrorIs e eBADF then some (.msg "serial port is closed".data)
    else some (.wrap ("failed to write command ".data ++ goQuote cmd.string ++ ": ".data) e)

/-- Embeds `Protocol.Write` of the older revision src/protocol/protocol.go
lines 258–268: EBADF becomes "Serial port is closed", any other outcome (nil
included) is returned verbatim. -/
def protocolWriteOld (portErr : Option GoError) : Option GoError :=
  match portErr with
  | none => none
  | some e =>
    if goErrorIs e eBADF then some (.msg "Serial port is closed".data)
    else some e

/-! ## Sensor.Active

Embeds `Sensor.Active` of src/sensor/sensor.go lines 160–202. -/

/-- One event observed by the receive loop of `Sensor.Active`: a command
arrives on the subscription channel, or the caller's context is cancelled. -/
inductive ActiveEvent
  | recv : Command → ActiveEvent
  | cancelled

/-- Embeds the receive loop of `Sensor.Active`: the fail opcode ends the
session successfully with the accumulated flag; a `Q` frame whose single
string parameter equals the sensor id sets the flag; context cancellation
returns the cancellation error.  `none` models a run whose event stream ends
without either terminator (the Go loop would still be blocked). -/
def activeLoop (idStr : List Char) (isActive : Bool) :
    List ActiveEvent → Option (Except GoError Bool)
  | [] => none
  | .cancelled :: _ => some (.error (.msg "context canceled".data))
  | .recv c :: rest =>
    if c.opCode = 'X' then some (.ok isActive)
    else
      let nowActive :=
        if c.opCode = 'Q' then
          match c.parametersStrings with
          | .ok params => if params = [idStr] then true else isActive
          | .error _ => isActive
        else isActive
      activeLoop idStr nowActive rest

/-- Embeds `Sensor.Active`: a write failure of the control command makes the
session return that error and `Active` return `false`; otherwise the receive
loop runs, a session error yields `false` and a successful session yields the
accumulated flag.  The result is a bare boolean — no error is surfaced. -/
def sensorActive (id : Nat) (writeErr : Option GoError) (events : List ActiveEvent) :
    Option Bool :=
  match writeErr with
  | some _ => some false
  | none =>
    match activeLoop (natDec id) false events with
    | none => none
    | some (.ok b) => some b
    | some (.error _) => some false

/-! ## Well-formed frame bodies

The specification's wire format (§6): ASCII frames, space-separated
parameters, quoted parameters delimited by `"` with no escape sequences
inside quotes.  A well-formed body is an opcode character followed by such
parameters. -/

/-- A well-formed parameter: a bare token or a quoted span. -/
inductive WfParam
  | bare : List Char → WfParam
  | quoted : List Char → WfParam
deriving DecidableEq, Repr

/-- The wire rendering of a well-formed parameter. -/
def WfParam.render : WfParam → List Char
  | .bare s => s
  | .quoted s => '"' :: (s ++ ['"'])

/-- The format marker the parser assigns to a well-formed parameter. -/
def WfParam.marker : WfParam → List Char
  | .bare _ => ['%', 's']
  | .quoted _ => ['%', 'q']

/-- The stored value the parser assigns to a well-formed parameter. -/
def WfParam.value : WfParam → List Char
  | .bare s => s
  | .quoted s => s

/-- Constraint on a well-formed parameter, following §6 of the specification:
tokens are printable ASCII; a bare token is non-empty and contains no space, no
quote and no frame delimiter; quoted content contains no quote, no backslash
(no escape sequences inside quotes) and no frame delimiter. -/
def WfParam.ok : WfParam → Prop
  | .bare s => s ≠ [] ∧ ∀ c ∈ s,
      32 ≤ c.toNat ∧ c.toNat < 127 ∧ c ≠ ' ' ∧ c ≠ '"' ∧ c ≠ '<' ∧ c ≠ '>'
  | .quoted s => ∀ c ∈ s,
      32 ≤ c.toNat ∧ c.toNat < 127 ∧ c ≠ '"' ∧ c ≠ '\\' ∧ c ≠ '<' ∧ c ≠ '>'

instance : DecidablePred WfParam.ok := fun t =>
  match t with
  | .bare s => inferInstanceAs (Decidable (s ≠ [] ∧ ∀ c ∈ s, _))
  | .quoted s => inferInstanceAs (Decidable (∀ c ∈ s, _))

/-- Constraint on a well-formed opcode: one printable ASCII character that is
not a frame delimiter. -/
def opOk (op : Char) : Prop :=
  32 ≤ op.toNat ∧ op.toNat < 127 ∧ op ≠ '<' ∧ op ≠ '>'

instance : DecidablePred opOk := fun op =>
  inferInstanceAs (Decidable (32 ≤ op.toNat ∧ op.toNat < 127 ∧ op ≠ '<' ∧ op ≠ '>'))

/-- Space-separated rendering of a parameter list. -/
def renderParams : List WfParam → List Char
  | [] => []
  | [t] => t.render
  | t :: ts => t.render ++ ' ' :: renderParams ts

/-- A well-formed frame body: the opcode, optionally a separating space (the
specification also admits the opcode immediately followed by its first
parameter, as in `a1`), and the space-separated parameters. -/
def wfBody (op : Char) (withSpace : Bool) (ts : List WfParam) : List Char :=
  op :: ((if withSpace then [' '] else []) ++ renderParams ts)

/-- The command the parser produces from a well-formed body. -/
def cmdOf (op : Char) (ts : List WfParam) : Command :=
  ⟨op, joinSp (ts.map WfParam.marker), (ts.map WfParam.value).map .str⟩

/-- A body whose final parameter opens a double quote that is never closed:
the opcode, a space, any well-formed parameters, and a trailing `"` followed
by the unterminated content. -/
def untermBody (op : Char) (ts : List WfParam) (w : List Char) : List Char :=
  op :: ' ' :: (renderParams ts ++ ((if ts.isEmpty then [] else [' ']) ++ ('"' :: w)))

/-- Constraint on unterminated quoted content: printable ASCII without quote
characters or frame delimiters, not ending in a space (which surrounding-space
trimming would drop). -/
def untermOk (w : List Char) : Prop :=
  (∀ c ∈ w, 32 ≤ c.toNat ∧ c.toNat < 127 ∧ c ≠ '"' ∧ c ≠ '<' ∧ c ≠ '>') ∧
    (∀ c, w.getLast? = some c → c ≠ ' ')

instance : DecidablePred untermOk := fun _ =>
  inferInstanceAs (Decidable (_ ∧ _))

instance : DecidablePred claimGateInv := fun _ =>
  inferInstanceAs (Decidable (_ ∧ _))

/-- Whether the specification machine's state corresponds to the Go
`commandReading` flag. -/
def LState.isReading : LState → Bool
  | .idle => false
  | .reading => true

/-- The message produced by Go `Error()` on the embedded error values:
wrapped errors concatenate their context with the inner message. -/
def errMessage : GoError → List Char
  | .errno 9 => "bad file descriptor".data
  | .errno n => "errno ".data ++ natDec n
  | .msg m => m
  | .wrap m e => m ++ errMessage e

/-- An event of the `Sensor.Active` receive loop that is not the terminating
fail frame. -/
def eventNotFail : ActiveEvent → Prop
  | .recv c => c.opCode ≠ 'X'
  | .cancelled => True

instance : DecidablePred eventNotFail := fun ev =>
  match ev with
  | .recv c => inferInstanceAs (Decidable (c.opCode ≠ 'X'))
  | .cancelled => inferInstanceAs (Decidable True)

/-! ## Lemmas about trimming -/

lemma trimLeft_nil (cut : List Char) : trimLeft cut [] = [] := rfl

lemma trimLeft_cons_mem {cut : List Char} {c : Char} (s : List Char) (h : c ∈ cut) :
    trimLeft cut (c :: s) = trimLeft cut s := by
  simp [trimLeft, h]

lemma trimLeft_eq_self (cut : List Char) (s : List Char)
    (h : ∀ c, s.head? = some c → c ∉ cut) : trimLeft cut s = s := by
  cases s with
  | nil => rfl
  | cons c t =>
    have hc : c ∉ cut := h c rfl
    simp [trimLeft, hc]

lemma goTrim_nil (cut : List Char) : goTrim cut [] = [] := rfl

lemma goTrim_eq_self (cut : List Char) (s : List Char)
    (h1 : ∀ c, s.head? = some c → c ∉ cut)
    (h2 : ∀ c, s.getLast? = some c → c ∉ cut) : goTrim cut s = s := by
  unfold goTrim
  rw [trimLeft_eq_self cut s h1]
  rw [trimLeft_eq_self cut s.reverse]
  · exact List.reverse_reverse s
  · intro c hc
    exact h2 c (by rwa [List.head?_reverse] at hc)

lemma goTrim_wrap (cut : List Char) (mid : List Char)
    (hlt : '<' ∈ cut) (hgt : '>' ∈ cut)
    (h1 : ∀ c, mid.head? = some c → c ∉ cut)
    (h2 : ∀ c, mid.getLast? = some c → c ∉ cut) :
    goTrim cut ('<' :: (mid ++ ['>'])) = mid := by
  cases mid with
  | nil =>
    unfold goTrim
    rw [show trimLeft cut ('<' :: ([] ++ ['>'])) = [] by simp [trimLeft, hlt, hgt]]
    rfl
  | cons a t =>
    have ha : a ∉ cut := h1 a rfl
    unfold goTrim
    rw [trimLeft_cons_mem _ hlt]
    rw [trimLeft_eq_self cut ((a :: t) ++ ['>'])
      (by intro c hc; simp only [List.cons_append, List.head?_cons, Option.some.injEq] at hc
          exact hc ▸ ha)]
    rw [show ((a :: t) ++ ['>']).reverse = '>' :: (a :: t).reverse by simp]
    rw [trimLeft_cons_mem _ hgt]
    rw [trimLeft_eq_self cut (a :: t).reverse
      (by intro c hc; exact h2 c (by rwa [List.head?_reverse] at hc))]
    exact List.reverse_reverse _

/-! ## Lemmas about well-formed parameter rendering -/

lemma render_ne_nil {t : WfParam} (h : t.ok) : t.render ≠ [] := by
  cases t with
  | bare s => exact h.1
  | quoted s => simp [WfParam.render]

lemma render_head_notin {t : WfParam} (h : t.ok) :
    ∀ c, t.render.head? = some c → c ≠ ' ' ∧ c ≠ '<' ∧ c ≠ '>' := by
  cases t with
  | bare s =>
    intro c hc
    cases s with
    | nil => simp [WfParam.render] at hc
    | cons a t' =>
      simp only [WfParam.render, List.head?_cons, Option.some.injEq] at hc
      cases hc
      have hm := h.2 c (by simp)
      exact ⟨hm.2.2.1, hm.2.2.2.2.1, hm.2.2.2.2.2⟩
  | quoted s =>
    intro c hc
    simp only [WfParam.render, List.head?_cons, Option.some.injEq] at hc
    cases hc
    exact ⟨by decide, by decide, by decide⟩

lemma render_last_notin {t : WfParam} (h : t.ok) :
    ∀ c, t.render.getLast? = some c → c ≠ ' ' ∧ c ≠ '<' ∧ c ≠ '>' := by
  cases t with
  | bare s =>
    intro c hc
    have hmem : c ∈ s := List.mem_of_mem_getLast? hc
    have hm := h.2 c hmem
    exact ⟨hm.2.2.1, hm.2.2.2.2.1, hm.2.2.2.2.2⟩
  | quoted s =>
    intro c hc
    rw [show (WfParam.quoted s).render = ('"' :: s) ++ ['"'] by simp [WfParam.render]] at hc
    rw [List.getLast?_concat] at hc
    cases hc
    exact ⟨by decide, by decide, by decide⟩

lemma renderParams_cons_cons (t t2 : WfParam) (ts : List WfParam) :
    renderParams (t :: t2 :: ts) = t.render ++ ' ' :: renderParams (t2 :: ts) := rfl

lemma renderParams_ne_nil {t : WfParam} {ts : List WfParam} (h : t.ok) :
    renderParams (t :: ts) ≠ [] := by
  cases ts with
  | nil => exact render_ne_nil h
  | cons t2 ts' =>
    rw [renderParams_cons_cons]
    intro hcontra
    rcases List.append_eq_nil.mp hcontra with ⟨-, h2⟩
    exact List.cons_ne_nil _ _ h2

lemma renderParams_head_notin {ts : List WfParam} (h : ∀ t ∈ ts, t.ok) :
    ∀ c, (renderParams ts).head? = some c → c ≠ ' ' ∧ c ≠ '<' ∧ c ≠ '>' := by
  cases ts with
  | nil => intro c hc; simp [renderParams] at hc
  | cons t ts' =>
    intro c hc
    have hok : t.ok := h t (by simp)
    cases ts' with
    | nil => exact render_head_notin hok c hc
    | cons t2 ts'' =>
      rw [renderParams_cons_cons] at hc
      cases hr : t.render with
      | nil => exact absurd hr (render_ne_nil hok)
      | cons a r =>
        rw [hr] at hc
        simp only [List.cons_append, List.head?_cons, Option.some.injEq] at hc
        cases hc
        exact render_head_notin hok c (by rw [hr]; rfl)

lemma renderParams_last_notin {ts : List WfParam} (h : ∀ t ∈ ts, t.ok) :
    ∀ c, (renderParams ts).getLast? = some c → c ≠ ' ' ∧ c ≠ '<' ∧ c ≠ '>' := by
  induction ts with
  | nil => intro c hc; simp [renderParams] at hc
  | cons t ts' ih =>
    intro c hc
    have hok : t.ok := h t (by simp)
    cases ts' with
    | nil => exact render_last_notin hok c hc
    | cons t2 ts'' =>
      rw [renderParams_cons_cons] at hc
      have hne : renderParams (t2 :: ts'') ≠ [] :=
        renderParams_ne_nil (h t2 (by simp))
      rw [List.getLast?_append_of_ne_nil _ (by simp)] at hc
      rw [show ' ' :: renderParams (t2 :: ts'') = [' '] ++ renderParams (t2 :: ts'') from rfl] at hc
      rw [List.getLast?_append_of_ne_nil _ hne] at hc
      exact ih (fun x hx => h x (by simp [hx])) c hc

/-! ## Lemmas about the parameter loop -/

lemma parseLoop_chars_false (s rest cur : List Char) (fs ps : List (List Char))
    (h : ∀ c ∈ s, c ≠ ' ' ∧ c ≠ '"') :
    parseLoop (s ++ rest) cur false fs ps = parseLoop rest (cur ++ s) false fs ps := by
  induction s generalizing cur with
  | nil => simp
  | cons c s' ih =>
    have hc := h c (by simp)
    rw [List.cons_append, parseLoop]
    rw [if_neg (by simp [hc.1])]
    rw [show (if c = '"' then !false else false) = false by simp [hc.2]]
    rw [ih (cur ++ [c]) (fun x hx => h x (by simp [hx]))]
    rw [List.append_assoc]
    rfl

lemma parseLoop_chars_true (s rest cur : List Char) (fs ps : List (List Char))
    (h : ∀ c ∈ s, c ≠ '"') :
    parseLoop (s ++ rest) cur true fs ps = parseLoop rest (cur ++ s) true fs ps := by
  induction s generalizing cur with
  | nil => simp
  | cons c s' ih =>
    have hc := h c (by simp)
    rw [List.cons_append, parseLoop]
    rw [if_neg (by simp)]
    rw [show (if c = '"' then !true else true) = true by simp [hc]]
    rw [ih (cur ++ [c]) (fun x hx => h x (by simp [hx]))]
    rw [List.append_assoc]
    rfl

lemma goTrim_no_quotes (s : List Char) (h : ∀ c ∈ s, c ≠ '"') :
    goTrim ['"'] s = s := by
  apply goTrim_eq_self
  · intro c hc
    cases s with
    | nil => simp at hc
    | cons a t =>
      simp only [List.head?_cons, Option.some.injEq] at hc
      cases hc
      simpa using h c (by simp)
  · intro c hc
    simpa using h c (List.mem_of_mem_getLast? hc)

lemma goTrim_quotes_wrap (s : List Char) (h : ∀ c ∈ s, c ≠ '"') :
    goTrim ['"'] ('"' :: (s ++ ['"'])) = s := by
  unfold goTrim
  rw [trimLeft_cons_mem _ (by simp)]
  cases s with
  | nil =>
    rw [show trimLeft ['"'] ([] ++ ['"']) = [] by simp [trimLeft]]
    rfl
  | cons a t =>
    have ha : a ≠ '"' := h a (by simp)
    rw [trimLeft_eq_self _ ((a :: t) ++ ['"'])
      (by intro c hc
          simp only [List.cons_append, List.head?_cons, Option.some.injEq] at hc
          cases hc
          simpa using ha)]
    rw [show ((a :: t) ++ ['"']).reverse = '"' :: (a :: t).reverse by simp]
    rw [trimLeft_cons_mem _ (by simp)]
    rw [trimLeft_eq_self _ (a :: t).reverse
      (by intro c hc
          rw [List.head?_reverse] at hc
          simpa using h c (List.mem_of_mem_getLast? hc))]
    exact List.reverse_reverse _

lemma markerOf_no_quote (cur : List Char) (h : ∀ c ∈ cur, c ≠ '"') :
    markerOf cur = ['%', 's'] := by
  unfold markerOf
  rw [if_neg]
  intro hmem
  exact h '"' hmem rfl

lemma bare_chars_ok {s : List Char}
    (h : s ≠ [] ∧ ∀ c ∈ s, 32 ≤ c.toNat ∧ c.toNat < 127 ∧ c ≠ ' ' ∧ c ≠ '"' ∧ c ≠ '<' ∧ c ≠ '>') :
    ∀ c ∈ s, c ≠ ' ' ∧ c ≠ '"' := by
  intro c hc
  exact ⟨(h.2 c hc).2.2.1, (h.2 c hc).2.2.2.1⟩

lemma quoted_chars_ok {s : List Char}
    (h : ∀ c ∈ s, 32 ≤ c.toNat ∧ c.toNat < 127 ∧ c ≠ '"' ∧ c ≠ '\\' ∧ c ≠ '<' ∧ c ≠ '>') :
    ∀ c ∈ s, c ≠ '"' := by
  intro c hc
  exact (h c hc).2.2.1

/-- Processing one well-formed token followed by a space stores its marker and
value and continues with an empty accumulator. -/
lemma parseLoop_token_space (t : WfParam) (rest : List Char) (fs ps : List (List Char))
    (h : t.ok) :
    parseLoop (t.render ++ ' ' :: rest) [] false fs ps =
      parseLoop rest [] false (fs ++ [t.marker]) (ps ++ [t.value]) := by
  cases t with
  | bare s =>
    rw [show (WfParam.bare s).render = s from rfl]
    rw [parseLoop_chars_false s _ [] fs ps (bare_chars_ok h)]
    rw [parseLoop]
    rw [if_pos ⟨rfl, rfl⟩]
    rw [List.nil_append]
    rw [show markerOf s = (WfParam.bare s).marker by
      rw [markerOf_no_quote s (fun c hc => ((bare_chars_ok h) c hc).2)]; rfl]
    rw [show valueOf s = (WfParam.bare s).value by
      unfold valueOf
      rw [goTrim_no_quotes s (fun c hc => ((bare_chars_ok h) c hc).2)]; rfl]
  | quoted s =>
    have hm : markerOf (('"' :: s) ++ ['"']) = (WfParam.quoted s).marker := by
      unfold markerOf
      rw [if_pos (by simp)]
      rfl
    have hv : valueOf (('"' :: s) ++ ['"']) = (WfParam.quoted s).value := by
      unfold valueOf
      rw [List.cons_append]
      rw [goTrim_quotes_wrap s (quoted_chars_ok h)]
      rfl
    rw [show (WfParam.quoted s).render = '"' :: (s ++ ['"']) from rfl]
    rw [List.cons_append, parseLoop]
    rw [if_neg (by simp)]
    rw [if_pos rfl]
    rw [Bool.not_false]
    rw [List.nil_append, List.append_assoc]
    rw [parseLoop_chars_true s _ ['"'] fs ps (quoted_chars_ok h)]
    simp only [List.cons_append, List.nil_append]
    rw [parseLoop]
    rw [if_neg (by simp)]
    rw [if_pos rfl]
    rw [Bool.not_true]
    rw [parseLoop]
    rw [if_pos ⟨rfl, rfl⟩]
    simp only [List.cons_append, List.nil_append] at hm hv ⊢
    rw [hm, hv]

/-- Processing the final well-formed token of the body stores its marker and
value through the trailing `storeParameterF` call. -/
lemma parseLoop_token_end (t : WfParam) (fs ps : List (List Char)) (h : t.ok) :
    parseLoop t.render [] false fs ps = (fs ++ [t.marker], ps ++ [t.value]) := by
  cases t with
  | bare s =>
    rw [show (WfParam.bare s).render = s from rfl]
    rw [show parseLoop s [] false fs ps = parseLoop [] s false fs ps by
      have h2 := parseLoop_chars_false s [] [] fs ps (bare_chars_ok h)
      simpa using h2]
    rw [parseLoop]
    rw [if_neg (by simp only [List.isEmpty_eq_true]; exact h.1)]
    rw [markerOf_no_quote s (fun c hc => ((bare_chars_ok h) c hc).2)]
    unfold valueOf
    rw [goTrim_no_quotes s (fun c hc => ((bare_chars_ok h) c hc).2)]
    rfl
  | quoted s =>
    have hm : markerOf (('"' :: s) ++ ['"']) = (WfParam.quoted s).marker := by
      unfold markerOf
      rw [if_pos (by simp)]
      rfl
    have hv : valueOf (('"' :: s) ++ ['"']) = (WfParam.quoted s).value := by
      unfold valueOf
      rw [List.cons_append]
      rw [goTrim_quotes_wrap s (quoted_chars_ok h)]
      rfl
    rw [show (WfParam.quoted s).render = '"' :: (s ++ ['"']) from rfl]
    rw [parseLoop]
    rw [if_neg (by simp)]
    rw [if_pos rfl]
    rw [Bool.not_false]
    rw [List.nil_append]
    rw [parseLoop_chars_true s _ ['"'] fs ps (quoted_chars_ok h)]
    simp only [List.cons_append, List.nil_append]
    rw [parseLoop]
    rw [if_neg (by simp)]
    rw [if_pos rfl]
    rw [Bool.not_true]
    rw [parseLoop]
    rw [if_neg (by simp)]
    simp only [List.cons_append, List.nil_append] at hm hv ⊢
    rw [hm, hv]

/-- Running the parameter loop over a whole space-separated parameter list
yields the markers and values of the list in order. -/
lemma parseLoop_params (ts : List WfParam) (fs ps : List (List Char))
    (h : ∀ t ∈ ts, t.ok) :
    parseLoop (renderParams ts) [] false fs ps =
      (fs ++ ts.map WfParam.marker, ps ++ ts.map WfParam.value) := by
  induction ts generalizing fs ps with
  | nil => simp [renderParams, parseLoop]
  | cons t ts' ih =>
    cases ts' with
    | nil =>
      rw [show renderParams [t] = t.render from rfl]
      rw [parseLoop_token_end t fs ps (h t (by simp))]
      simp
    | cons t2 ts'' =>
      rw [renderParams_cons_cons]
      rw [parseLoop_token_space t _ fs ps (h t (by simp))]
      rw [ih _ _ (fun x hx => h x (by simp [hx]))]
      simp

/-- Running the parameter loop over a non-empty parameter list followed by a
space and more input consumes the list and continues on the remaining input. -/
lemma parseLoop_params_mid (ts : List WfParam) (rest : List Char)
    (fs ps : List (List Char)) (hne : ts ≠ []) (h : ∀ t ∈ ts, t.ok) :
    parseLoop (renderParams ts ++ ' ' :: rest) [] false fs ps =
      parseLoop rest [] false (fs ++ ts.map WfParam.marker) (ps ++ ts.map WfParam.value) := by
  induction ts generalizing fs ps with
  | nil => exact absurd rfl hne
  | cons t ts' ih =>
    cases ts' with
    | nil =>
      rw [show renderParams [t] = t.render from rfl]
      rw [parseLoop_token_space t rest fs ps (h t (by simp))]
      simp
    | cons t2 ts'' =>
      rw [renderParams_cons_cons, List.append_assoc]
      rw [show (' ' :: renderParams (t2 :: ts'')) ++ ' ' :: rest
          = ' ' :: (renderParams (t2 :: ts'') ++ ' ' :: rest) from rfl]
      rw [parseLoop_token_space t _ fs ps (h t (by simp))]
      rw [ih _ _ (by simp) (fun x hx => h x (by simp [hx]))]
      simp

/-! ## Parsing a well-formed body -/

lemma goTrim_cons_mem {cut : List Char} {c : Char} (s : List Char) (h : c ∈ cut) :
    goTrim cut (c :: s) = goTrim cut s := by
  unfold goTrim
  rw [trimLeft_cons_mem s h]

lemma goTrim_spaces_renderParams (ts : List WfParam) (h : ∀ t ∈ ts, t.ok) :
    goTrim [' '] (renderParams ts) = renderParams ts := by
  apply goTrim_eq_self
  · intro c hc
    have hn := renderParams_head_notin h c hc
    simp only [List.mem_singleton]
    exact hn.1
  · intro c hc
    have hn := renderParams_last_notin h c hc
    simp only [List.mem_singleton]
    exact hn.1

lemma goTrim_body (ws : Bool) (ts : List WfParam) (h : ∀ t ∈ ts, t.ok) :
    goTrim [' '] ((if ws then [' '] else []) ++ renderParams ts) = renderParams ts := by
  cases ws with
  | false => simpa using goTrim_spaces_renderParams ts h
  | true =>
    rw [show ((if true then [' '] else []) ++ renderParams ts : List Char)
        = ' ' :: renderParams ts by simp]
    rw [goTrim_cons_mem _ (by simp)]
    exact goTrim_spaces_renderParams ts h

lemma op_notin_arrows {op : Char} (hop : opOk op) : op ∉ ['<', '>'] := by
  simp only [List.mem_cons, List.not_mem_nil, or_false]
  rintro (rfl | rfl)
  · exact hop.2.2.1 rfl
  · exact hop.2.2.2 rfl

lemma wfBody_trim (op : Char) (ws : Bool) (ts : List WfParam)
    (hop : opOk op) (h : ∀ t ∈ ts, t.ok) :
    goTrim ['<', '>'] (wfBody op ws ts) = wfBody op ws ts := by
  apply goTrim_eq_self
  · intro c hc
    simp only [wfBody, List.head?_cons, Option.some.injEq] at hc
    cases hc
    exact op_notin_arrows hop
  · intro c hc
    cases hts : ts with
    | nil =>
      subst hts
      cases ws with
      | false =>
        rw [show wfBody op false [] = [op] by simp [wfBody, renderParams]] at hc
        simp only [List.getLast?_singleton, Option.some.injEq] at hc
        cases hc
        exact op_notin_arrows hop
      | true =>
        rw [show wfBody op true [] = [op, ' '] by simp [wfBody, renderParams]] at hc
        simp only [List.getLast?_cons_cons, List.getLast?_singleton, Option.some.injEq] at hc
        cases hc
        decide
    | cons t ts' =>
      subst hts
      have hne : renderParams (t :: ts') ≠ [] := renderParams_ne_nil (h t (by simp))
      rw [show wfBody op ws (t :: ts')
          = [op] ++ ((if ws then [' '] else []) ++ renderParams (t :: ts')) from rfl] at hc
      rw [List.getLast?_append_of_ne_nil _ (by
        intro hcontra
        rcases List.append_eq_nil.mp hcontra with ⟨-, h2⟩
        exact hne h2)] at hc
      rw [List.getLast?_append_of_ne_nil _ hne] at hc
      have hn := renderParams_last_notin h c hc
      simp only [List.mem_cons, List.not_mem_nil, or_false]
      rintro (rfl | rfl)
      · exact hn.2.1 rfl
      · exact hn.2.2 rfl

lemma parse_of_trim (x : List Char) (op : Char) (rest : List Char)
    (h : goTrim ['<', '>'] x = op :: rest) :
    NewCommandFromString x =
      .ok ⟨op, joinSp (parseLoop (goTrim [' '] rest) [] false [] []).1,
          (parseLoop (goTrim [' '] rest) [] false [] []).2.map .str⟩ := by
  simp [NewCommandFromString, h]

/-- Parsing a well-formed body succeeds and yields exactly the opcode, the
joined format markers and the parameter values. -/
lemma parse_wfBody (op : Char) (ws : Bool) (ts : List WfParam)
    (hop : opOk op) (h : ∀ t ∈ ts, t.ok) :
    NewCommandFromString (wfBody op ws ts) = .ok (cmdOf op ts) := by
  rw [parse_of_trim (wfBody op ws ts) op ((if ws then [' '] else []) ++ renderParams ts)
    (by rw [wfBody_trim op ws ts hop h]; rfl)]
  rw [goTrim_body ws ts h]
  rw [parseLoop_params ts [] [] h]
  simp [cmdOf]

/-! ## Serialization of a parsed well-formed body -/

lemma goQuoteChar_clean (c : Char) (h32 : 32 ≤ c.toNat) (h127 : c.toNat < 127)
    (hq : c ≠ '"') (hb : c ≠ '\\') : goQuoteChar c = [c] := by
  have hn : c ≠ '\n' := by rintro rfl; exact absurd h32 (by decide)
  have ht : c ≠ '\t' := by rintro rfl; exact absurd h32 (by decide)
  have hr : c ≠ '\r' := by rintro rfl; exact absurd h32 (by decide)
  unfold goQuoteChar
  rw [if_neg hq, if_neg hb, if_neg hn, if_neg ht, if_neg hr, if_neg (by omega)]

lemma goQuote_clean (s : List Char)
    (h : ∀ c ∈ s, 32 ≤ c.toNat ∧ c.toNat < 127 ∧ c ≠ '"' ∧ c ≠ '\\') :
    goQuote s = '"' :: (s ++ ['"']) := by
  unfold goQuote
  congr 1
  congr 1
  induction s with
  | nil => rfl
  | cons c s' ih =>
    rw [List.flatMap_cons]
    have hc := h c (by simp)
    rw [goQuoteChar_clean c hc.1 hc.2.1 hc.2.2.1 hc.2.2.2]
    rw [ih (fun x hx => h x (by simp [hx]))]
    rfl

/-- Rendering the joined format markers of a well-formed parameter list with
its stored string values reproduces the wire rendering of the list. -/
lemma renderFormat_markers (ts : List WfParam) (h : ∀ t ∈ ts, t.ok) :
    renderFormat (joinSp (ts.map WfParam.marker)) ((ts.map WfParam.value).map .str) =
      renderParams ts := by
  induction ts with
  | nil => rfl
  | cons t ts' ih =>
    cases ts' with
    | nil =>
      cases t with
      | bare s =>
        show renderFormat ['%', 's'] [.str s] = s
        rw [show renderFormat ['%', 's'] [.str s] = s ++ renderFormat [] [] from rfl]
        simp [renderFormat]
      | quoted s =>
        show renderFormat ['%', 'q'] [.str s] = (WfParam.quoted s).render
        rw [show renderFormat ['%', 'q'] [.str s] = goQuote s ++ renderFormat [] [] from rfl]
        have hok := h (WfParam.quoted s) (by simp)
        rw [goQuote_clean s (fun c hc =>
          ⟨(hok c hc).1, (hok c hc).2.1, (hok c hc).2.2.1, (hok c hc).2.2.2.1⟩)]
        simp [renderFormat, WfParam.render]
    | cons t2 ts'' =>
      have hjoin : joinSp ((t :: t2 :: ts'').map WfParam.marker)
          = t.marker ++ ' ' :: joinSp ((t2 :: ts'').map WfParam.marker) := rfl
      rw [hjoin]
      rw [renderParams_cons_cons]
      cases t with
      | bare s =>
        rw [show (WfParam.bare s).marker = ['%', 's'] from rfl]
        rw [show (['%', 's'] ++ ' ' :: joinSp ((t2 :: ts'').map WfParam.marker))
            = '%' :: 's' :: ' ' :: joinSp ((t2 :: ts'').map WfParam.marker) from rfl]
        rw [show ((WfParam.bare s :: t2 :: ts'').map WfParam.value).map GoValue.str
            = .str s :: ((t2 :: ts'').map WfParam.value).map .str from rfl]
        rw [show renderFormat ('%' :: 's' :: ' ' :: joinSp ((t2 :: ts'').map WfParam.marker))
            (.str s :: ((t2 :: ts'').map WfParam.value).map .str)
            = s ++ renderFormat (' ' :: joinSp ((t2 :: ts'').map WfParam.marker))
              (((t2 :: ts'').map WfParam.value).map .str) from rfl]
        rw [show renderFormat (' ' :: joinSp ((t2 :: ts'').map WfParam.marker))
            (((t2 :: ts'').map WfParam.value).map .str)
            = ' ' :: renderFormat (joinSp ((t2 :: ts'').map WfParam.marker))
              (((t2 :: ts'').map WfParam.value).map .str) from rfl]
        rw [ih (fun x hx => h x (by simp [hx]))]
        rfl
      | quoted s =>
        rw [show (WfParam.quoted s).marker = ['%', 'q'] from rfl]
        rw [show (['%', 'q'] ++ ' ' :: joinSp ((t2 :: ts'').map WfParam.marker))
            = '%' :: 'q' :: ' ' :: joinSp ((t2 :: ts'').map WfParam.marker) from rfl]
        rw [show ((WfParam.quoted s :: t2 :: ts'').map WfParam.value).map GoValue.str
            = .str s :: ((t2 :: ts'').map WfParam.value).map .str from rfl]
        rw [show renderFormat ('%' :: 'q' :: ' ' :: joinSp ((t2 :: ts'').map WfParam.marker))
            (.str s :: ((t2 :: ts'').map WfParam.value).map .str)
            = goQuote s ++ renderFormat (' ' :: joinSp ((t2 :: ts'').map WfParam.marker))
              (((t2 :: ts'').map WfParam.value).map .str) from rfl]
        rw [show renderFormat (' ' :: joinSp ((t2 :: ts'').map WfParam.marker))
            (((t2 :: ts'').map WfParam.value).map .str)
            = ' ' :: renderFormat (joinSp ((t2 :: ts'').map WfParam.marker))
              (((t2 :: ts'').map WfParam.value).map .str) from rfl]
        rw [ih (fun x hx => h x (by simp [hx]))]
        have hok := h (WfParam.quoted s) (by simp)
        rw [goQuote_clean s (fun c hc =>
          ⟨(hok c hc).1, (hok c hc).2.1, (hok c hc).2.2.1, (hok c hc).2.2.2.1⟩)]
        rfl

lemma marker_ne_nil (t : WfParam) : t.marker ≠ [] := by
  cases t <;> simp [WfParam.marker]

lemma joinSp_markers_ne_nil (t : WfParam) (ts : List WfParam) :
    joinSp ((t :: ts).map WfParam.marker) ≠ [] := by
  cases ts with
  | nil => exact marker_ne_nil t
  | cons t2 ts' =>
    rw [show joinSp ((t :: t2 :: ts').map WfParam.marker)
        = t.marker ++ ' ' :: joinSp ((t2 :: ts').map WfParam.marker) from rfl]
    intro hcontra
    rcases List.append_eq_nil.mp hcontra with ⟨-, h2⟩
    exact List.cons_ne_nil _ _ h2

/-- Serializing the command parsed from an empty parameter list yields the
bare-opcode frame. -/
lemma string_cmdOf_nil (op : Char) : (cmdOf op []).string = ['<', op, '>'] := rfl

/-- Serializing the command parsed from a well-formed body reproduces the
frame delimiters, the opcode, one separating space and the wire rendering of
the parameters. -/
lemma string_cmdOf_cons (op : Char) (t : WfParam) (ts : List WfParam)
    (h : ∀ x ∈ t :: ts, x.ok) :
    (cmdOf op (t :: ts)).string = '<' :: op :: ' ' :: (renderParams (t :: ts) ++ ['>']) := by
  show (if (joinSp ((t :: ts).map WfParam.marker)).isEmpty then _ else _) = _
  rw [if_neg (by
    simp only [List.isEmpty_eq_true]
    exact joinSp_markers_ne_nil t ts)]
  rw [show (cmdOf op (t :: ts)).format = joinSp ((t :: ts).map WfParam.marker) from rfl]
  rw [show (cmdOf op (t :: ts)).parameters = ((t :: ts).map WfParam.value).map .str from rfl]
  rw [renderFormat_markers _ h]
  rfl

/-- Re-parsing the serialization of the command parsed from a well-formed body
returns the same command, so serialize-after-parse is idempotent. -/
lemma reparse_cmdOf (op : Char) (ts : List WfParam)
    (hop : opOk op) (h : ∀ t ∈ ts, t.ok) :
    NewCommandFromString ((cmdOf op ts).string) = .ok (cmdOf op ts) := by
  cases ts with
  | nil =>
    rw [string_cmdOf_nil]
    rw [parse_of_trim _ op [] (by
      rw [show (['<', op, '>'] : List Char) = '<' :: ([op] ++ ['>']) from rfl]
      rw [goTrim_wrap ['<', '>'] [op] (by simp) (by simp)
        (by intro c hc
            simp only [List.head?_cons, Option.some.injEq] at hc
            cases hc
            exact op_notin_arrows hop)
        (by intro c hc
            simp only [List.getLast?_singleton, Option.some.injEq] at hc
            cases hc
            exact op_notin_arrows hop)])]
    rfl
  | cons t ts' =>
    rw [string_cmdOf_cons op t ts' h]
    have hne : renderParams (t :: ts') ≠ [] := renderParams_ne_nil (h t (by simp))
    rw [parse_of_trim _ op (' ' :: renderParams (t :: ts')) (by
      rw [show ('<' :: op :: ' ' :: (renderParams (t :: ts') ++ ['>']) : List Char)
          = '<' :: ((op :: ' ' :: renderParams (t :: ts')) ++ ['>']) from rfl]
      rw [goTrim_wrap ['<', '>'] (op :: ' ' :: renderParams (t :: ts')) (by simp) (by simp)
        (by intro c hc
            simp only [List.head?_cons, Option.some.injEq] at hc
            cases hc
            exact op_notin_arrows hop)
        (by intro c hc
            rw [show (op :: ' ' :: renderParams (t :: ts') : List Char)
                = [op, ' '] ++ renderParams (t :: ts') from rfl] at hc
            rw [List.getLast?_append_of_ne_nil _ hne] at hc
            have hn := renderParams_last_notin h c hc
            simp only [List.mem_cons, List.not_mem_nil, or_false]
            rintro (rfl | rfl)
            · exact hn.2.1 rfl
            · exact hn.2.2 rfl)])]
    rw [show goTrim [' '] (' ' :: renderParams (t :: ts')) = renderParams (t :: ts') by
      rw [goTrim_cons_mem _ (by simp)]
      exact goTrim_spaces_renderParams _ h]
    rw [parseLoop_params _ [] [] h]
    simp [cmdOf]

/-! ## Bodies whose final parameter opens an unterminated quote -/

lemma goTrim_quotes_open (w : List Char) (h : ∀ c ∈ w, c ≠ '"') :
    goTrim ['"'] ('"' :: w) = w := by
  rw [goTrim_cons_mem _ (by simp)]
  exact goTrim_no_quotes w h

/-- The parameter loop on an opening quote followed by quote-free content
stores one quoted parameter holding the content with the quote stripped. -/
lemma parseLoop_unterm (w : List Char) (fs ps : List (List Char))
    (h : ∀ c ∈ w, c ≠ '"') :
    parseLoop ('"' :: w) [] false fs ps = (fs ++ [['%', 'q']], ps ++ [w]) := by
  rw [parseLoop]
  rw [if_neg (by simp)]
  rw [if_pos rfl, Bool.not_false, List.nil_append]
  rw [show parseLoop w ['"'] true fs ps = parseLoop [] (['"'] ++ w) true fs ps by
    have h2 := parseLoop_chars_true w [] ['"'] fs ps h
    simpa using h2]
  simp only [List.cons_append, List.nil_append]
  rw [parseLoop]
  rw [if_neg (by simp)]
  rw [show markerOf ('"' :: w) = ['%', 'q'] by unfold markerOf; rw [if_pos (by simp)]]
  rw [show valueOf ('"' :: w) = w by unfold valueOf; exact goTrim_quotes_open w h]

/-- Parsing a body with an unterminated final quote succeeds: the open span
becomes the last parameter with the quote stripped and the quoted marker. -/
lemma parse_untermBody (op : Char) (ts : List WfParam) (w : List Char)
    (hop : opOk op) (h : ∀ t ∈ ts, t.ok) (hw : untermOk w) :
    NewCommandFromString (untermBody op ts w) =
      .ok ⟨op, joinSp (ts.map WfParam.marker ++ [['%', 'q']]),
          (ts.map WfParam.value ++ [w]).map .str⟩ := by
  have hwq : ∀ c ∈ w, c ≠ '"' := fun c hc => (hw.1 c hc).2.2.1
  have hquoteLast : ∀ c, ('"' :: w).getLast? = some c → c ∉ ['<', '>'] := by
    intro c hc
    cases hwn : w with
    | nil =>
      subst hwn
      simp only [List.getLast?_singleton, Option.some.injEq] at hc
      cases hc
      decide
    | cons a t =>
      subst hwn
      rw [show ('"' :: a :: t : List Char) = ['"'] ++ (a :: t) from rfl] at hc
      rw [List.getLast?_append_of_ne_nil _ (by simp)] at hc
      have hmem : c ∈ a :: t := List.mem_of_mem_getLast? hc
      have := hw.1 c hmem
      simp only [List.mem_cons, List.not_mem_nil, or_false]
      rintro (rfl | rfl)
      · exact this.2.2.2.1 rfl
      · exact this.2.2.2.2 rfl
  have hquoteLastSp : ∀ c, ('"' :: w).getLast? = some c → c ≠ ' ' := by
    intro c hc
    cases hwn : w with
    | nil =>
      subst hwn
      simp only [List.getLast?_singleton, Option.some.injEq] at hc
      cases hc
      decide
    | cons a t =>
      subst hwn
      rw [show ('"' :: a :: t : List Char) = ['"'] ++ (a :: t) from rfl] at hc
      rw [List.getLast?_append_of_ne_nil _ (by simp)] at hc
      exact hw.2 c hc
  cases hts : ts with
  | nil =>
    rw [show untermBody op [] w = op :: ' ' :: ('"' :: w) by
      simp [untermBody, renderParams]]
    rw [parse_of_trim _ op (' ' :: ('"' :: w)) (by
      rw [show (op :: ' ' :: ('"' :: w) : List Char)
          = op :: (' ' :: ('"' :: w)) from rfl]
      apply goTrim_eq_self
      · intro c hc
        simp only [List.head?_cons, Option.some.injEq] at hc
        cases hc
        exact op_notin_arrows hop
      · intro c hc
        rw [show (op :: ' ' :: ('"' :: w) : List Char)
            = [op, ' '] ++ ('"' :: w) from rfl] at hc
        rw [List.getLast?_append_of_ne_nil _ (by simp)] at hc
        exact hquoteLast c hc)]
    rw [show goTrim [' '] (' ' :: ('"' :: w)) = '"' :: w by
      rw [goTrim_cons_mem _ (by simp)]
      apply goTrim_eq_self
      · intro c hc
        simp only [List.head?_cons, Option.some.injEq] at hc
        cases hc
        decide
      · intro c hc
        have h1 := hquoteLast c hc
        have h2 := hquoteLastSp c hc
        simp only [List.mem_singleton]
        exact h2]
    rw [parseLoop_unterm w [] [] hwq]
    simp
  | cons t ts' =>
    subst hts
    have hne : renderParams (t :: ts') ≠ [] := renderParams_ne_nil (h t (by simp))
    rw [show untermBody op (t :: ts') w
        = op :: ' ' :: (renderParams (t :: ts') ++ (' ' :: ('"' :: w))) by
      simp [untermBody]]
    rw [parse_of_trim _ op (' ' :: (renderParams (t :: ts') ++ (' ' :: ('"' :: w)))) (by
      apply goTrim_eq_self
      · intro c hc
        simp only [List.head?_cons, Option.some.injEq] at hc
        cases hc
        exact op_notin_arrows hop
      · intro c hc
        rw [show (op :: ' ' :: (renderParams (t :: ts') ++ (' ' :: ('"' :: w))) : List Char)
            = ([op, ' '] ++ renderParams (t :: ts') ++ [' ']) ++ ('"' :: w) by simp] at hc
        rw [List.getLast?_append_of_ne_nil _ (by simp)] at hc
        exact hquoteLast c hc)]
    rw [show goTrim [' '] (' ' :: (renderParams (t :: ts') ++ (' ' :: ('"' :: w))))
        = renderParams (t :: ts') ++ (' ' :: ('"' :: w)) by
      rw [goTrim_cons_mem _ (by simp)]
      apply goTrim_eq_self
      · intro c hc
        cases hr : renderParams (t :: ts') with
        | nil => exact absurd hr hne
        | cons a r =>
          rw [hr] at hc
          simp only [List.cons_append, List.head?_cons, Option.some.injEq] at hc
          cases hc
          have hn := renderParams_head_notin h c (by rw [hr]; rfl)
          simp only [List.mem_singleton]
          exact hn.1
      · intro c hc
        rw [show renderParams (t :: ts') ++ (' ' :: ('"' :: w))
            = (renderParams (t :: ts') ++ [' ']) ++ ('"' :: w) by simp] at hc
        rw [List.getLast?_append_of_ne_nil _ (by simp)] at hc
        have := hquoteLastSp c hc
        simp only [List.mem_singleton]
        exact this]
    rw [parseLoop_params_mid (t :: ts') ('"' :: w) [] [] (by simp) h]
    rw [parseLoop_unterm w _ _ hwq]
    simp

/-- The parser is total on every input whose arrow-trimmed body is non-empty:
it never rejects, whatever the quote balance. -/
lemma parse_total (B : List Char) (h : goTrim ['<', '>'] B ≠ []) :
    ∃ c : Command, NewCommandFromString B = .ok c := by
  unfold NewCommandFromString
  cases htrim : goTrim ['<', '>'] B with
  | nil => exact absurd htrim h
  | cons op rest => exact ⟨_, rfl⟩

/-- Every parameter of every parsed command is stored as a string. -/
lemma parse_params_strings (B : List Char) (c : Command)
    (h : NewCommandFromString B = .ok c) :
    ∀ p ∈ c.parameters, ∃ s, p = .str s := by
  unfold NewCommandFromString at h
  cases htrim : goTrim ['<', '>'] B with
  | nil => rw [htrim] at h; exact absurd h (by simp)
  | cons op rest =>
    rw [htrim] at h
    simp only [Except.ok.injEq] at h
    subst h
    intro p hp
    simp only [List.mem_map] at hp
    obtain ⟨s, -, hs⟩ := hp
    exact ⟨s, hs.symm⟩

/-- Parsing fails exactly on inputs whose arrow-trimmed body is empty, with
the "invalid command length" error. -/
lemma parse_empty (B : List Char) (h : goTrim ['<', '>'] B = []) :
    NewCommandFromString B = .error ("invalid command length: ".data ++ goQuote B) := by
  unfold NewCommandFromString
  rw [h]

/-! ## Listener equivalence -/

lemma listenSpecAmended_cons (c : Char) (rest : List Char) (st : LState) (buf : List Char) :
    listenSpecAmended (c :: rest) st buf =
      if c = '\n' then listenSpecAmended rest st buf
      else if c = '<' then listenSpecAmended rest .reading buf
      else if c = '>' then buf :: listenSpecAmended rest .idle []
      else
        match st with
        | .idle => listenSpecAmended rest .idle buf
        | .reading => listenSpecAmended rest .reading (buf ++ [c]) := rfl

/-- The Go listener loop and the amended reference machine emit the same
frames from every state. -/
lemma listen_equiv (bytes : List Char) : ∀ (st : LState) (buf : List Char),
    listenGo bytes st.isReading buf = listenSpecAmended bytes st buf := by
  induction bytes with
  | nil => intro st buf; rfl
  | cons c rest ih =>
    intro st buf
    rw [listenGo, listenSpecAmended_cons]
    by_cases hnl : c = '\n'
    · subst hnl
      rw [if_pos rfl]
      rw [if_neg (by decide), if_neg (by decide), if_pos rfl]
      exact ih st buf
    by_cases hlt : c = '<'
    · subst hlt
      rw [if_pos rfl]
      rw [if_neg (by decide), if_pos rfl]
      exact ih .reading buf
    by_cases hgt : c = '>'
    · subst hgt
      rw [if_neg (by decide), if_pos rfl]
      rw [if_neg (by decide), if_neg (by decide), if_pos rfl]
      exact congrArg (fun l => buf :: l) (ih .idle [])
    · rw [if_neg hlt, if_neg hgt, if_neg hnl]
      rw [if_neg hnl, if_neg hlt, if_neg hgt]
      cases st with
      | idle =>
        rw [show LState.idle.isReading = false from rfl]
        rw [if_neg (by simp)]
        exact ih .idle buf
      | reading =>
        rw [show LState.reading.isReading = true from rfl]
        rw [if_pos rfl]
        exact ih .reading (buf ++ [c])

/-! ## Gate invariant -/

/-- Every reachable gate state has at most one write-session holder. -/
lemma gateReachable_writers (s : GateState) (h : GateReachable s) : s.writers ≤ 1 := by
  induction h with
  | init => decide
  | @step s1 s2 e _ hstep ih =>
    cases e with
    | acquireWrite =>
      by_cases h0 : s1.writers = 0
      · simp only [gateStep, h0, if_pos] at hstep
        cases hstep
        simp [h0]
      · simp [gateStep, h0] at hstep
    | releaseWrite =>
      by_cases h0 : 1 ≤ s1.writers
      · simp only [gateStep, h0, if_pos] at hstep
        cases hstep
        simp
        omega
      · simp [gateStep, h0] at hstep
    | acquireRead =>
      simp only [gateStep] at hstep
      cases hstep
      simpa using ih
    | releaseRead =>
      by_cases h0 : 1 ≤ s1.readers
      · simp only [gateStep, h0, if_pos] at hstep
        cases hstep
        simpa using ih
      · simp [gateStep, h0] at hstep

/-- The state with one write session and one concurrent read session is
reachable: `Session` acquires the lock, then `RSession` starts unhindered. -/
lemma gateReachable_one_one : GateReachable ⟨1, 1⟩ := by
  have h1 : GateReachable ⟨1, 0⟩ :=
    GateReachable.step GateReachable.init (e := GateEvent.acquireWrite) (by decide)
  exact GateReachable.step h1 (e := GateEvent.acquireRead) (by decide)

/-! ## Error messages -/

lemma goErrorIs_self (e : GoError) : goErrorIs e e = true := by
  cases e <;> simp [goErrorIs]

lemma goErrorIs_wrap_self (m : List Char) (e : GoError) :
    goErrorIs (.wrap m e) e = true := by
  rw [goErrorIs]
  rw [goErrorIs_self]
  simp

/-! ## Sensor.Active receive loop -/

/-- If the caller's context is cancelled before any fail frame arrives, the
receive loop of `Sensor.Active` ends with the cancellation error. -/
lemma activeLoop_cancelled (idStr : List Char) (evs tail : List ActiveEvent)
    (hnoX : ∀ ev ∈ evs, eventNotFail ev) : ∀ b : Bool,
    activeLoop idStr b (evs ++ .cancelled :: tail) =
      some (.error (.msg "context canceled".data)) := by
  induction evs with
  | nil => intro b; rfl
  | cons ev evs' ih =>
    intro b
    cases ev with
    | cancelled => rfl
    | recv c =>
      rw [List.cons_append, activeLoop]
      rw [if_neg (hnoX (.recv c) (by simp))]
      exact ih (fun x hx => hnoX x (by simp [hx])) _

/-! # Claim theorems -/

/-- Claim C1, counterexample: the state with one write-session holder and one
concurrent `RSession` read session is reachable (acquire the write lock, then
start a read session, which takes no lock), and the claimed invariant — no
read session while a write session holds the gate — fails there. -/
theorem C1_gate_counterexample :
    gateRun ⟨0, 0⟩ [.acquireWrite, .acquireRead] = some ⟨1, 1⟩ ∧
    GateReachable ⟨1, 1⟩ ∧ ¬ claimGateInv ⟨1, 1⟩ :=
  ⟨rfl, gateReachable_one_one, by decide⟩

/-- Claim C1, amended: at any instant at most one write-session (Session or
SessionSuccess) holds the channel gate; `RSession` read sessions take no lock,
so they run concurrently with each other and also with a write session. -/
theorem C1_gate_invariant :
    (∀ s : GateState, GateReachable s → s.writers ≤ 1) ∧ GateReachable ⟨1, 1⟩ :=
  ⟨gateReachable_writers, gateReachable_one_one⟩

/-- Claim C1 witness: the amended invariant evaluated at the reachable state
with one writer and one reader. -/
theorem C1_gate_invariant_witness : (⟨1, 1⟩ : GateState).writers ≤ 1 :=
  C1_gate_invariant.1 ⟨1, 1⟩ gateReachable_one_one

/-- Claim C2, counterexample: on the byte sequence `<a<b>` the Go listener
emits the frame `ab` (a `<` inside READING keeps the accumulated bytes) while
the claimed reference machine discards them and emits `b`. -/
theorem C2_listener_counterexample :
    listenGo "<a<b>".data false [] = [['a', 'b']] ∧
    listenSpecClaim "<a<b>".data .idle [] = [['b']] ∧
    listenGo "<a<b>".data false [] ≠ listenSpecClaim "<a<b>".data .idle [] :=
  ⟨by decide, by decide, by decide⟩

/-- Claim C2, amended: for every byte sequence the frames the listener emits
for dispatch equal those of the reference state machine in which `<` enters
READING but retains the bytes accumulated so far, newlines are discarded in
every state, any other byte except `>` is appended while in READING, and `>`
emits the accumulated buffer in every state (in IDLE the buffer is empty, so
an empty frame string is emitted, which dispatch later drops as unparseable). -/
theorem C2_listener_equiv (bytes : List Char) :
    listenGo bytes false [] = listenSpecAmended bytes .idle [] :=
  listen_equiv bytes .idle []

/-- Claim C3: in `SessionSuccess`, if the failure opcode arrives before the
session function completes, the session function's context is cancelled and
the returned error is the failure error naming (containing the serialization
of) the last command written through the channel's write cache; if the
session function returns nil first, the watcher is cancelled and nil is
returned; if it returns its own error first, that error is returned. -/
theorem C3_session_success (init : Command) (writes : List Command) (e : GoError)
    (hclean : ∀ c ∈ (lastCommandCache init writes).string,
      32 ≤ c.toNat ∧ c.toNat < 127 ∧ c ≠ '"' ∧ c ≠ '\\') :
    (sessionSuccess false .failFrame (lastCommandCache init writes)).fCancelled = true ∧
    (sessionSuccess false .failFrame (lastCommandCache init writes)).result =
      some (sessionFailureError (lastCommandCache init writes)) ∧
    List.IsInfix (lastCommandCache init writes).string
      (errMessage (sessionFailureError (lastCommandCache init writes))) ∧
    sessionSuccess false (.fDone none) (lastCommandCache init writes) =
      ⟨none, false, true⟩ ∧
    (sessionSuccess false (.fDone (some e)) (lastCommandCache init writes)).result = some e := by
  refine ⟨rfl, rfl, ?_, rfl, rfl⟩
  show List.IsInfix (lastCommandCache init writes).string
    ("observed session failure after last command ".data ++
      goQuote (lastCommandCache init writes).string)
  rw [goQuote_clean _ hclean]
  exact ⟨"observed session failure after last command ".data ++ ['"'], ['"'], by simp⟩

/-- Claim C3 witness: the three race outcomes evaluated with the turnout
examine command `<T 99 X>` as the last written frame. -/
theorem C3_session_success_witness :
    (sessionSuccess false .failFrame
      (lastCommandCache (NewCommand 's' [] [])
        [NewCommand 'T' "%s %s".data [.str "99".data, .str ['X']]])).fCancelled = true :=
  (C3_session_success (NewCommand 's' [] [])
    [NewCommand 'T' "%s %s".data [.str "99".data, .str ['X']]]
    (.msg "some error".data) (by decide)).1

/-- Claim C4, counterexample: the cleanup closure of `Protocol.Read` is not
idempotent — its first run succeeds, but a second run reaches
`close(subscription.egressC)` on an already-closed channel and panics. -/
theorem C4_cleanup_counterexample :
    cleanupRun subInit = .ok ⟨true, false, true, true, true, false⟩ ∧
    cleanupRun ⟨true, false, true, true, true, false⟩ =
      .error "close of closed channel".data :=
  ⟨rfl, rfl⟩

/-- Claim C4, amended: the cleanup closure may be invoked at most once; its
single invocation settles (joins) the relay task, closes the egress,
cancellation and ingress channels, removes the subscription from the
registry, and returns no error — but a second invocation panics on closing an
already-closed channel, so the handle is not idempotent. -/
theorem C4_cleanup_single_shot :
    cleanupRun subInit = .ok ⟨true, false, true, true, true, false⟩ ∧
    (⟨true, false, true, true, true, false⟩ : SubState).relayRunning = false ∧
    (⟨true, false, true, true, true, false⟩ : SubState).inRegistry = false ∧
    (⟨true, false, true, true, true, false⟩ : SubState).egressClosed = true ∧
    (⟨true, false, true, true, true, false⟩ : SubState).cancelledClosed = true ∧
    (⟨true, false, true, true, true, false⟩ : SubState).ingressClosed = true ∧
    cleanupRun ⟨true, false, true, true, true, false⟩ =
      .error "close of closed channel".data :=
  ⟨rfl, rfl, rfl, rfl, rfl, rfl, rfl⟩

/-- Claim C5: for every well-formed input body, parsing succeeds and
serialize-after-parse is idempotent — re-parsing the serialization returns a
command with the same serialization; in particular `a1` parses to opcode `a`,
parameter `1`, format `%s` and serializes to `<a 1>` with a re-inserted
separating space. -/
theorem C5_roundtrip_idempotent (op : Char) (ws : Bool) (ts : List WfParam)
    (hop : opOk op) (h : ∀ t ∈ ts, t.ok) :
    (∃ c c2 : Command,
      NewCommandFromString (wfBody op ws ts) = .ok c ∧
      NewCommandFromString c.string = .ok c2 ∧
      c2.string = c.string) ∧
    NewCommandFromString "a1".data = .ok ⟨'a', ['%', 's'], [.str ['1']]⟩ ∧
    (⟨'a', ['%', 's'], [.str ['1']]⟩ : Command).string = "<a 1>".data :=
  ⟨⟨cmdOf op ts, cmdOf op ts, parse_wfBody op ws ts hop h,
    reparse_cmdOf op ts hop h, rfl⟩, rfl, rfl⟩

/-- Claim C5 witness: the round trip evaluated on the body `a1`. -/
theorem C5_roundtrip_idempotent_witness :
    ∃ c c2 : Command,
      NewCommandFromString (wfBody 'a' false [.bare ['1']]) = .ok c ∧
      NewCommandFromString c.string = .ok c2 ∧
      c2.string = c.string :=
  (C5_roundtrip_idempotent 'a' false [.bare ['1']] (by decide) (by decide)).1

/-- Claim C6: `NewCommandFromString` fails exactly when the input trimmed of
leading and trailing `<` and `>` characters is empty, with the "invalid
command length" error; on every non-empty trimmed body it is total and every
parsed parameter is stored as a string. -/
theorem C6_parse_totality (B : List Char) :
    (goTrim ['<', '>'] B = [] →
      NewCommandFromString B = .error ("invalid command length: ".data ++ goQuote B)) ∧
    (goTrim ['<', '>'] B ≠ [] →
      ∃ c : Command, NewCommandFromString B = .ok c ∧
        ∀ p ∈ c.parameters, ∃ s, p = .str s) := by
  refine ⟨parse_empty B, fun h => ?_⟩
  obtain ⟨c, hc⟩ := parse_total B h
  exact ⟨c, hc, parse_params_strings B c hc⟩

/-- Claim C6 witness: the empty frame `<>` is rejected with the invalid
command length error and the body `a1` is parsed with string parameters. -/
theorem C6_parse_totality_witness :
    NewCommandFromString "<>".data =
      .error ("invalid command length: ".data ++ goQuote "<>".data) ∧
    (∃ c : Command, NewCommandFromString "a1".data = .ok c ∧
      ∀ p ∈ c.parameters, ∃ s, p = .str s) :=
  ⟨(C6_parse_totality "<>".data).1 (by decide),
   (C6_parse_totality "a1".data).2 (by decide)⟩

/-- Claim C7: a parameter surrounded by double quotes is captured as one token
including contained spaces, receives the `%q` marker and is stored with the
quotes stripped, while a bare token receives `%s`; in particular the body
`a "hello world"` parses to opcode `a`, parameter `hello world`, format `%q`
and serializes back to `<a "hello world">`. -/
theorem C7_quoted_params (op : Char) (w s : List Char)
    (hop : opOk op) (hq : WfParam.ok (.quoted w)) (hb : WfParam.ok (.bare s)) :
    NewCommandFromString (wfBody op true [.quoted w]) = .ok ⟨op, ['%', 'q'], [.str w]⟩ ∧
    NewCommandFromString (wfBody op true [.bare s]) = .ok ⟨op, ['%', 's'], [.str s]⟩ ∧
    NewCommandFromString "a \"hello world\"".data =
      .ok ⟨'a', ['%', 'q'], [.str "hello world".data]⟩ ∧
    (⟨'a', ['%', 'q'], [.str "hello world".data]⟩ : Command).string =
      "<a \"hello world\">".data := by
  refine ⟨?_, ?_, rfl, rfl⟩
  · exact parse_wfBody op true [.quoted w] hop (by
      intro t ht
      simp only [List.mem_singleton] at ht
      subst ht
      exact hq)
  · exact parse_wfBody op true [.bare s] hop (by
      intro t ht
      simp only [List.mem_singleton] at ht
      subst ht
      exact hb)

/-- Claim C7 witness: the quoted and bare cases evaluated on `a "hello world"`
and `a b`. -/
theorem C7_quoted_params_witness :
    NewCommandFromString (wfBody 'a' true [.quoted "hello world".data]) =
      .ok ⟨'a', ['%', 'q'], [.str "hello world".data]⟩ ∧
    NewCommandFromString (wfBody 'a' true [.bare ['b']]) =
      .ok ⟨'a', ['%', 's'], [.str ['b']]⟩ :=
  ⟨(C7_quoted_params 'a' "hello world".data ['b'] (by decide) (by decide) (by decide)).1,
   (C7_quoted_params 'a' "hello world".data ['b'] (by decide) (by decide) (by decide)).2.1⟩

/-- Claim C8, counterexample: a transport write error other than EBADF is not
propagated verbatim — `Protocol.Write` wraps it with the failing command's
serialization. -/
theorem C8_write_counterexample :
    goErrorIs (GoError.msg "input/output error".data) eBADF = false ∧
    protocolWrite (some (GoError.msg "input/output error".data)) (NewCommand 's' [] []) ≠
      some (GoError.msg "input/output error".data) := by
  refine ⟨rfl, ?_⟩
  intro hcontra
  simp [protocolWrite, goErrorIs, eBADF] at hcontra

/-- Claim C8, amended: `Protocol.Write` translates an EBADF transport write
error into the "serial port is closed" error; every other transport write
error is returned wrapped with the failing command's serialization as context
(so not verbatim), with the original error preserved in the wrap chain and
still recoverable by `errors.Is`. -/
theorem C8_write_wraps (e : GoError) (cmd : Command) :
    protocolWrite none cmd = none ∧
    (goErrorIs e eBADF = true →
      protocolWrite (some e) cmd = some (.msg "serial port is closed".data)) ∧
    (goErrorIs e eBADF = false →
      protocolWrite (some e) cmd =
        some (.wrap ("failed to write command ".data ++ goQuote cmd.string ++ ": ".data) e) ∧
      goErrorIs
        (.wrap ("failed to write command ".data ++ goQuote cmd.string ++ ": ".data) e) e
        = true) := by
  refine ⟨rfl, fun hy => ?_, fun hn => ⟨?_, goErrorIs_wrap_self _ e⟩⟩
  · simp [protocolWrite, hy]
  · simp [protocolWrite, hn]

/-- Claim C8 witness: the EBADF translation and the wrapping of an ordinary
error, evaluated on the status command. -/
theorem C8_write_wraps_witness :
    protocolWrite (some eBADF) (NewCommand 's' [] []) =
      some (.msg "serial port is closed".data) ∧
    protocolWrite (some (GoError.msg "eio".data)) (NewCommand 's' [] []) =
      some (.wrap ("failed to write command ".data ++
        goQuote (NewCommand 's' [] []).string ++ ": ".data) (GoError.msg "eio".data)) :=
  ⟨(C8_write_wraps eBADF (NewCommand 's' [] [])).2.1 (by decide),
   ((C8_write_wraps (GoError.msg "eio".data) (NewCommand 's' [] [])).2.2 (by decide)).1⟩

/-- Claim C9: a body whose final parameter opens a quote that is never closed
still parses: the open span becomes the last parameter with the quote
character stripped and the `%q` marker, and the parser never rejects any
non-empty body, whatever its quote balance. -/
theorem C9_unterminated_quote (op : Char) (ts : List WfParam) (w : List Char)
    (hop : opOk op) (h : ∀ t ∈ ts, t.ok) (hw : untermOk w) :
    NewCommandFromString (untermBody op ts w) =
      .ok ⟨op, joinSp (ts.map WfParam.marker ++ [['%', 'q']]),
          (ts.map WfParam.value ++ [w]).map .str⟩ ∧
    (∀ B : List Char, goTrim ['<', '>'] B ≠ [] →
      ∃ c : Command, NewCommandFromString B = .ok c) :=
  ⟨parse_untermBody op ts w hop h hw, parse_total⟩

/-- Claim C9 witness: the body `a "hello` parses to a single `%q` parameter
`hello`. -/
theorem C9_unterminated_quote_witness :
    NewCommandFromString (untermBody 'a' [] "hello".data) =
      .ok ⟨'a', joinSp (([] : List WfParam).map WfParam.marker ++ [['%', 'q']]),
          (([] : List WfParam).map WfParam.value ++ ["hello".data]).map .str⟩ :=
  (C9_unterminated_quote 'a' [] "hello".data (by decide) (by decide) (by decide)).1

/-- Claim C10: `Sensor.Active` returns a bare boolean: a control-command write
failure makes it return `false`, cancellation of the caller's context before
the terminating fail frame makes it return `false`, and a genuinely inactive
sensor (the fail frame arrives with no matching active frame) also yields
`false` — the cases are indistinguishable and no error is surfaced. -/
theorem C10_sensor_active (id : Nat) (e : GoError) (evs tail : List ActiveEvent)
    (hnoX : ∀ ev ∈ evs, eventNotFail ev) :
    sensorActive id (some e) tail = some false ∧
    sensorActive id none (evs ++ .cancelled :: tail) = some false ∧
    sensorActive id none [.recv ⟨'X', [], []⟩] = some false := by
  refine ⟨rfl, ?_, rfl⟩
  show (match activeLoop (natDec id) false (evs ++ .cancelled :: tail) with
    | none => none
    | some (.ok b) => some b
    | some (.error _) => some false) = some false
  rw [activeLoop_cancelled (natDec id) evs tail hnoX false]

/-- Claim C10 witness: a write failure and a cancellation after a matching
active frame both yield `false` for sensor 7. -/
theorem C10_sensor_active_witness :
    sensorActive 7 (some (GoError.msg "serial port is closed".data)) [] = some false ∧
    sensorActive 7 none
      ([.recv ⟨'Q', "%s".data, [.str ['7']]⟩] ++ .cancelled :: []) = some false :=
  ⟨(C10_sensor_active 7 (GoError.msg "serial port is closed".data)
      [.recv ⟨'Q', "%s".data, [.str ['7']]⟩] [] (by decide)).1,
   (C10_sensor_active 7 (GoError.msg "serial port is closed".data)
      [.recv ⟨'Q', "%s".data, [.str ['7']]⟩] [] (by decide)).2.1⟩

end DccExGo
